import Mathlib

/-
Verification of the ArchSentinel dependency-analysis core
(src/analyzer.ts and src/graph.ts) against its specification.

Modelling conventions:
- Paths and identities are Lean `String`s; the host is POSIX, so
  `path.sep` is "/" and `normalize` splits on "/" and rejoins with "/".
- The JavaScript `RegExp` engine is treated as an opaque oracle: every
  definition that calls `new RegExp(pat).test(s)` takes a parameter
  `rtest : String → String → Bool` applied as `rtest pat s`, and the
  regex-driven import extraction loop is abstracted as a parameter
  `extract : Bool → String → List RegexMatch` producing the match list
  (match.index, match[0], match[1]) in the order the source loops yield
  them.  All control flow around those calls is translated literally.
- The Node filesystem probes (fs.existsSync, fs.lstatSync(...).isFile,
  fs.lstatSync(...).isDirectory) are a record of Boolean predicates `FS`.
- JavaScript numbers occurring in the instability metric are modelled as
  exact rationals (`Rat`); the division `ce / total` and the literal
  thresholds 0.7 / 0.3 are exact there.
- The recursive `dfs` of graph.ts is given explicit fuel; its recursion
  depth is bounded by the number of distinct nodes (every recursive call
  is on an unvisited node, and each call marks its node visited), and
  `detectCycle` passes fuel strictly larger than that bound, so the fuel
  is never exhausted on the states `detectCycle` reaches.
-/

namespace ArchSentinel

/-! ### Kernel-computable JS string primitives

The JS string methods the source calls (split, startsWith, endsWith,
trim, includes, indexOf) are modelled over character lists with
structural recursion, so that concrete runs evaluate inside the kernel. -/

/-- Splitter core: walk the characters with fuel (one unit per consumed
character suffices), cutting at each occurrence of the separator. -/
def splitAux (sep : List Char) : Nat → List Char → List Char → List (List Char)
  | 0, acc, rest => [acc.reverse ++ rest]
  | _ + 1, acc, [] => [acc.reverse]
  | fuel + 1, acc, c :: rest =>
    if sep.isPrefixOf (c :: rest) then
      acc.reverse :: splitAux sep fuel [] ((c :: rest).drop sep.length)
    else
      splitAux sep fuel (c :: acc) rest

/-- JS `s.split(sep)` for the non-empty separators the model uses (an
empty separator yields the whole string). -/
def splitOnStr (s sep : String) : List String :=
  if sep.isEmpty then [s]
  else (splitAux sep.toList (s.length + 1) [] s.toList).map (fun l => ⟨l⟩)

/-- JS `s.startsWith(pre)`. -/
def strStartsWith (s pre : String) : Bool := pre.toList.isPrefixOf s.toList

/-- JS `s.endsWith(post)`. -/
def strEndsWith (s post : String) : Bool := post.toList.reverse.isPrefixOf s.toList.reverse

/-- The whitespace characters JS trim removes in the texts this model
handles. -/
def isWhitespaceChar (c : Char) : Bool :=
  (c == ' ') || (c == '\t') || (c == '\n') || (c == '\r')

/-- JS `s.trim()`. -/
def strTrim (s : String) : String :=
  ⟨((s.toList.dropWhile isWhitespaceChar).reverse.dropWhile isWhitespaceChar).reverse⟩

/-! ### Path helpers (Node path module, POSIX flavour) -/

/-- path.sep on the POSIX host. -/
def pathSep : String := "/"

/-- Helper from both source files: `p.split(path.sep).join('/')`. -/
def normalize (p : String) : String :=
  String.intercalate "/" (splitOnStr p pathSep)

/-- POSIX `path.isAbsolute`. -/
def isAbsolute (p : String) : Bool := strStartsWith p "/"

/-- Segment normalization used by `path.resolve`: drop empty and `.`
segments, let `..` pop the previously accepted segment. -/
def resolveSegs (acc : List String) : List String → List String
  | [] => acc
  | seg :: rest =>
    if seg = "" then resolveSegs acc rest
    else if seg = "." then resolveSegs acc rest
    else if seg = ".." then resolveSegs acc.dropLast rest
    else resolveSegs (acc ++ [seg]) rest

/-- POSIX `path.resolve(dir, p)` for an absolute `dir` (the analyzer only
resolves against directories of absolute document file names). -/
def pathResolve (dir p : String) : String :=
  let full := if isAbsolute p then p else dir ++ "/" ++ p
  "/" ++ String.intercalate "/" (resolveSegs [] (splitOnStr full "/"))

/-- POSIX `path.dirname`. -/
def dirname (p : String) : String :=
  match (splitOnStr p "/").dropLast with
  | [] => "."
  | [""] => "/"
  | parts => String.intercalate "/" parts

/-- POSIX `path.basename` (last non-empty segment). -/
def basename (p : String) : String :=
  (((splitOnStr p "/").filter (fun s => s ≠ "")).getLast?).getD ""

/-- `path.join(a, b)` for the shapes used by resolveImport (a clean
directory path joined with a plain file name). -/
def pathJoin (a b : String) : String := a ++ "/" ++ b

/-! ### Filesystem oracle -/

/-- The three Node filesystem probes used by `resolveImport`. -/
structure FS where
  pathExists : String → Bool
  isFile : String → Bool
  isDirectory : String → Bool

/-! ### Path resolution (graph.ts, resolveImport) -/

/-- The fixed extension probe order of graph.ts. -/
def extensions : List String := [".ts", ".tsx", ".dart", ".js", ".jsx"]

/-- graph.ts `resolveImport(currentFile, importPath)`:
relative imports are resolved against the current directory and probed
(exact file, then each extension appended, then `index` + extension
inside an existing directory); absolute imports are accepted only when
they exist; anything else (package imports) yields none. -/
def resolveImport (fs : FS) (currentFile importPath : String) : Option String :=
  let currentDir := dirname currentFile
  if strStartsWith importPath "." then
    let resolved := pathResolve currentDir importPath
    if fs.pathExists resolved && fs.isFile resolved then
      some (normalize resolved)
    else
      match extensions.find? (fun ext => fs.pathExists (resolved ++ ext)) with
      | some ext => some (normalize (resolved ++ ext))
      | none =>
        if fs.pathExists resolved && fs.isDirectory resolved then
          match extensions.find? (fun ext => fs.pathExists (pathJoin resolved ("index" ++ ext))) with
          | some ext => some (normalize (pathJoin resolved ("index" ++ ext)))
          | none => none
        else none
  else
    if isAbsolute importPath then
      if fs.pathExists importPath then some (normalize importPath) else none
    else none

/-- Reference resolver following the words of the specification (section
4.2): a literal with no relative-path marker that is not absolute is an
opaque reference (none); a relative literal is joined against the
referring directory and the probes run in order — the exact joined path
(a hit when it exists as a file; directories are deferred to the third
probe, which the specification reserves for existing directories), then
each extension of the fixed ordered list appended, then, when the joined
path is an existing directory, each extension appended to an `index`
basename inside it; the first filesystem hit wins and is returned
normalized; an absolute literal is accepted only when it exists. -/
def resolveImportRef (fs : FS) (currentFile importPath : String) : Option String :=
  if strStartsWith importPath "." then
    let joined := pathResolve (dirname currentFile) importPath
    let fileHit := if fs.pathExists joined && fs.isFile joined then some joined else none
    let extHit := (extensions.map (fun ext => joined ++ ext)).find? fs.pathExists
    let indexHit :=
      if fs.pathExists joined && fs.isDirectory joined then
        (extensions.map (fun ext => pathJoin joined ("index" ++ ext))).find? fs.pathExists
      else none
    (fileHit <|> extHit <|> indexHit).map normalize
  else if isAbsolute importPath then
    if fs.pathExists importPath then some (normalize importPath) else none
  else none

/-! ### Data model (analyzer.ts Rule, graph.ts adjacency entries) -/

/-- analyzer.ts `Rule`: scope and forbidden hold regex source strings. -/
structure Rule where
  scope : String
  forbidden : List String
  message : String
deriving DecidableEq, Repr

/-- One stored adjacency entry of graph.ts: resolved path, the original import
literal, and the suppression flag. -/
structure ImportEntry where
  resolvedPath : String
  originalImport : String
  isIgnored : Bool
deriving DecidableEq, Repr

/-- The adjacency structure: a JS `Map` in insertion order, modelled as an
association list with unique keys (see `setAdj`). -/
abbrev Adj := List (String × List ImportEntry)

/-- `Map.get` on the adjacency list. -/
def lookupAdj (adj : Adj) (k : String) : Option (List ImportEntry) :=
  match adj.find? (fun e => e.fst == k) with
  | some e => some e.snd
  | none => none

/-- `Map.set`: replace the value at an existing key in place, otherwise
append the new key at the end — exactly the JS `Map` insertion-order
semantics. -/
def setAdj : Adj → String → List ImportEntry → Adj
  | [], k, v => [(k, v)]
  | (k', v') :: rest, k, v =>
    if k' == k then (k, v) :: rest else (k', v') :: setAdj rest k v

/-- graph.ts `DependencyGraph` state: the private adjacencyList. -/
structure DependencyGraph where
  adj : Adj
deriving DecidableEq, Repr

/-- graph.ts `update`: atomically replaces the whole edge list stored for
the (normalized) file path. -/
def update (g : DependencyGraph) (filePath : String) (imports : List ImportEntry) : DependencyGraph :=
  ⟨setAdj g.adj (normalize filePath) imports⟩

/-! ### Cycle detection (graph.ts detectCycle / dfs) -/

/-- The three mutable collections threaded through `dfs`: the visited
set, the active-recursion set and the path stack (sets are lists used
only through membership, insertion and single deletion). -/
structure DfsState where
  visited : List String
  recStack : List String
  pathStack : List String
deriving DecidableEq, Repr

/-- The `for (const neighbor of neighbors)` loop body of `dfs`: an
already-visited neighbor on the active-recursion stack closes a cycle
(push it and return true), an already-visited neighbor off the stack is
skipped, an unvisited neighbor recurses through `rec`. -/
def dfsLoop (rec : String → DfsState → Bool × DfsState) :
    List ImportEntry → DfsState → Bool × DfsState
  | [], s => (false, s)
  | n :: rest, s =>
    if s.visited.contains n.resolvedPath then
      if s.recStack.contains n.resolvedPath then
        (true, ⟨s.visited, s.recStack, s.pathStack ++ [n.resolvedPath]⟩)
      else dfsLoop rec rest s
    else
      match rec n.resolvedPath s with
      | (true, s') => (true, s')
      | (false, s') => dfsLoop rec rest s'

/-- graph.ts `dfs`, with explicit fuel bounding the recursion depth (the
source recursion terminates because every recursive call is on a node it
immediately marks visited; `detectCycle` passes more fuel than there are
distinct nodes, so the zero-fuel branch is never reached from it).  On
entry the node joins the visited set, the recursion stack and the path
stack; when the neighbor loop finds no cycle, the node is removed from
the recursion stack and popped from the path stack. -/
def dfsGo (adj : Adj) : Nat → String → DfsState → Bool × DfsState
  | 0, _, s => (false, s)
  | Nat.succ fuel, node, s =>
    let s1 : DfsState := ⟨node :: s.visited, node :: s.recStack, s.pathStack ++ [node]⟩
    match dfsLoop (dfsGo adj fuel) ((lookupAdj adj node).getD []) s1 with
    | (true, s2) => (true, s2)
    | (false, s2) => (false, ⟨s2.visited, s2.recStack.erase node, s2.pathStack.dropLast⟩)

/-- Fuel exceeding the number of distinct nodes reachable in the graph
(every key plus every edge target plus the start node). -/
def fuelBound (adj : Adj) : Nat :=
  adj.length + (adj.map (fun e => e.snd.length)).sum + 2

/-- graph.ts `detectCycle`: run `dfs` from the normalized start node with
fresh visited/recursion/path collections; the path stack is the witness
when a cycle is found, otherwise the result is empty. -/
def detectCycle (g : DependencyGraph) (startNode : String) : List String :=
  match dfsGo g.adj (fuelBound g.adj) (normalize startNode) ⟨[], [], []⟩ with
  | (true, s) => s.pathStack
  | (false, _) => []

/-! ### Render graph derivation (graph.ts getJsonGraph) -/

/-- The vis.js `dashes` field takes either a boolean or a number list. -/
inductive Dashes where
  | bool (b : Bool)
  | nums (l : List Nat)
deriving DecidableEq, Repr

/-- A rendered node: id, directory group, the computed instability and
the background color hex (the `label` string of the source, the basename
plus the instability rounded to two decimals, is presentation-only
formatting and elided; the constant border/highlight/font fields are
elided likewise). -/
structure GNode where
  id : String
  group : String
  instability : Rat
  color : String
deriving DecidableEq, Repr

/-- A rendered edge with its styling fields. -/
structure GEdge where
  fromId : String
  toId : String
  color : String
  width : Nat
  dashes : Dashes
deriving DecidableEq, Repr

/-- The fan-in map of getJsonGraph: the value stored for `x` after
initializing every key to 0 and incrementing per import is exactly the
number of stored edges whose resolved target is `x` (and `get(x) || 0`
is 0 for identities never touched). -/
def fanInCount (adj : Adj) (x : String) : Nat :=
  ((adj.flatMap Prod.snd).filter (fun e => e.resolvedPath == x)).length

/-- The node-synthesis block of getJsonGraph: `ca` is the fan-in map
value, `ce` the fan-out the call site supplies, instability is
`ce / (ca + ce)` (0 when the total is 0), and the color thresholds are
green, then orange above 0.7, then yellow above 0.3.  The JS number
division of the two naturals is the exact rational `mkRat ce total`
(`Rat.mkRat_eq_div` relates it to field division), and the literals 0.7
and 0.3 denote the exact rationals 7/10 and 3/10. -/
def mkGNode (adj : Adj) (id : String) (ce : Nat) : GNode :=
  let ca := fanInCount adj id
  let total := ca + ce
  let instability : Rat := if total == 0 then 0 else mkRat ce total
  let color :=
    if instability > mkRat 7 10 then "#ffb347"
    else if instability > mkRat 3 10 then "#fdfd96"
    else "#77dd77"
  { id := id, group := dirname id, instability := instability, color := color }

/-- The violation check of getJsonGraph (lines 158-168): the double loop
over the applicable rules and their forbidden patterns with early break
tests each pattern against the edge ORIGINAL import literal only. -/
def isViolationEdge (rtest : String → String → Bool)
    (applicableRules : List Rule) (originalImport : String) : Bool :=
  applicableRules.any fun rule =>
    rule.forbidden.any fun pattern => rtest pattern originalImport

/-- The edge styling block of getJsonGraph: gray thin dashed when clean,
orange width 2 dashes [5,5] for an ignored violation, red width 3 solid
for an active violation. -/
def styleEdge (isViolation isIgnored : Bool) : String × Nat × Dashes :=
  if isViolation then
    if isIgnored then ("#FFA500", 2, Dashes.nums [5, 5])
    else ("red", 3, Dashes.bool false)
  else ("gray", 1, Dashes.bool true)

/-- An edge record of getJsonGraph. -/
def mkGEdge (file : String) (imp : ImportEntry) (isViolation : Bool) : GEdge :=
  let (c, w, d) := styleEdge isViolation imp.isIgnored
  { fromId := file, toId := imp.resolvedPath, color := c, width := w, dashes := d }

/-- The inner `for (const imp of imports)` loop of getJsonGraph: add the
target node when not yet added (with fan-out 0), then push the styled
edge. -/
def getJsonGraphInner (rtest : String → String → Bool) (adj : Adj)
    (applicableRules : List Rule) (file : String)
    (acc : List GNode × List GEdge × List String) (imp : ImportEntry) :
    List GNode × List GEdge × List String :=
  let (nodes, edges, addedNodes) := acc
  let (nodes, addedNodes) :=
    if addedNodes.contains imp.resolvedPath then (nodes, addedNodes)
    else (nodes ++ [mkGNode adj imp.resolvedPath 0], addedNodes ++ [imp.resolvedPath])
  let isViolation := isViolationEdge rtest applicableRules imp.originalImport
  (nodes, edges ++ [mkGEdge file imp isViolation], addedNodes)

/-- The outer `for (const [file, imports] of entries)` loop body of
getJsonGraph: add the source node when not yet added (with fan-out =
the length of its import list), filter the rules whose scope matches the
file, then run the inner loop over the imports. -/
def getJsonGraphStep (rtest : String → String → Bool) (adj : Adj) (rules : List Rule)
    (acc : List GNode × List GEdge × List String)
    (entry : String × List ImportEntry) :
    List GNode × List GEdge × List String :=
  let (nodes, edges, addedNodes) := acc
  let (file, imports) := entry
  let (nodes, addedNodes) :=
    if addedNodes.contains file then (nodes, addedNodes)
    else (nodes ++ [mkGNode adj file imports.length], addedNodes ++ [file])
  let applicableRules := rules.filter fun rule => rtest rule.scope file
  imports.foldl (getJsonGraphInner rtest adj applicableRules file) (nodes, edges, addedNodes)

/-- graph.ts `getJsonGraph(rules)`: fold the two nested loops over the
adjacency entries, starting from empty node/edge lists and an empty
added-node set. -/
def getJsonGraph (rtest : String → String → Bool) (g : DependencyGraph)
    (rules : List Rule) : List GNode × List GEdge :=
  let (nodes, edges, _) := g.adj.foldl (getJsonGraphStep rtest g.adj rules) ([], [], [])
  (nodes, edges)

/-! ### Documents, positions and diagnostics (the vscode surface used by
analyzer.ts) -/

/-- A text document: absolute file name plus full text. -/
structure Doc where
  fileName : String
  text : String
deriving DecidableEq, Repr

/-- A zero-based line/character position. -/
structure Pos where
  line : Nat
  character : Nat
deriving DecidableEq, Repr

/-- A vscode Range (start and stop positions). -/
structure Range where
  startPos : Pos
  stopPos : Pos
deriving DecidableEq, Repr

/-- A produced diagnostic; severity 0 is Error, 1 is Warning, and the
source field is always the string ArchSentinel. -/
structure Diagnostic where
  range : Range
  message : String
  severity : Nat
  source : String
deriving DecidableEq, Repr

/-- One regex match as the source loops consume it: `match.index`,
`match[0]` (the whole matched statement) and `match[1]` (the captured import
literal between the quotes). -/
structure RegexMatch where
  index : Nat
  whole : String
  capture : String
deriving DecidableEq, Repr

/-- `doc.positionAt(offset)`: walk the first `offset` characters counting
line breaks (clamping at the end of the text). -/
def positionAtAux : List Char → Nat → Nat → Nat → Pos
  | _, 0, line, col => ⟨line, col⟩
  | [], _ + 1, line, col => ⟨line, col⟩
  | c :: rest, n + 1, line, col =>
    if c = '\n' then positionAtAux rest n (line + 1) 0
    else positionAtAux rest n line (col + 1)

/-- `doc.positionAt`. -/
def positionAt (d : Doc) (offset : Nat) : Pos :=
  positionAtAux d.text.toList offset 0 0

/-- `doc.lineAt(i).text`. -/
def lineTextAt (d : Doc) (i : Nat) : String :=
  (splitOnStr d.text "\n").getD i ""

/-- JS `String.prototype.includes` for a non-empty needle. -/
def strContains (s pat : String) : Bool :=
  (splitOnStr s pat).length > 1

/-- JS `String.prototype.indexOf` over the character list (first index of
the needle, -1 when absent). -/
def indexOfChars (pat : List Char) : List Char → Nat → Int
  | [], i => if pat.isEmpty then Int.ofNat i else -1
  | s@(_ :: rest), i =>
    if pat.isPrefixOf s then Int.ofNat i else indexOfChars pat rest (i + 1)

/-- JS `s.indexOf(pat)`. -/
def indexOfSubstr (s pat : String) : Int :=
  indexOfChars pat.toList s.toList 0

/-! ### The analyzer (analyzer.ts analyzeDocument) -/

/-- The suppression check of analyzer.ts (lines 73-81): the import is
ignored when its statement does not start on line 0 and the trimmed text
of the line immediately above contains the literal marker. -/
def isIgnoredAt (doc : Doc) (start : Nat) : Bool :=
  let startPos := positionAt doc start
  decide (startPos.line > 0) &&
    strContains (strTrim (lineTextAt doc (startPos.line - 1))) "// arch-ignore"

/-- The violation condition of analyzer.ts line 103: the forbidden
pattern is tested against the resolved absolute path and against the
original import literal. -/
def forbiddenHit (rtest : String → String → Bool)
    (resolvedAbsolutePath importPath forbiddenPattern : String) : Bool :=
  rtest forbiddenPattern resolvedAbsolutePath || rtest forbiddenPattern importPath

/-- The diagnostic pushed for one forbidden-import hit (severity Error,
source ArchSentinel). -/
def mkViolationDiag (range : Range) (message importPath : String) : Diagnostic :=
  { range := range
    message := message ++ " (Forbidden import: " ++ importPath ++ ")"
    severity := 0
    source := "ArchSentinel" }

/-- The rule-check double loop of analyzer.ts (lines 96-115) for one import:
every applicable rule and every forbidden pattern is tried (no
break), each hit pushes a diagnostic unless the import is ignored. -/
def importDiagnostics (rtest : String → String → Bool) (applicableRules : List Rule)
    (range : Range) (resolvedAbsolutePath importPath : String) (isIgnored : Bool) :
    List Diagnostic :=
  applicableRules.flatMap fun rule =>
    rule.forbidden.filterMap fun pattern =>
      if forbiddenHit rtest resolvedAbsolutePath importPath pattern then
        if isIgnored then none
        else some (mkViolationDiag range rule.message importPath)
      else none

/-- The per-match diagnostic computation of analyzeDocument: locate the
literal inside the whole match to build the range, resolve relative
literals against the file directory (others are normalized as written),
then run the rule-check loop. -/
def matchDiagnostics (rtest : String → String → Bool) (doc : Doc)
    (applicableRules : List Rule) (m : RegexMatch) : List Diagnostic :=
  let importPath := m.capture
  let importPathIndex := indexOfSubstr m.whole importPath
  let absoluteStart := (Int.ofNat m.index + importPathIndex).toNat
  let absoluteEnd := absoluteStart + importPath.length
  let range : Range := ⟨positionAt doc absoluteStart, positionAt doc absoluteEnd⟩
  let resolvedAbsolutePath :=
    if strStartsWith importPath "." then
      normalize (pathResolve (dirname doc.fileName) importPath)
    else normalize importPath
  importDiagnostics rtest applicableRules range resolvedAbsolutePath importPath
    (isIgnoredAt doc m.index)

/-- The graph-edge computation of analyzeDocument (lines 117-122): the import
contributes an entry only when `resolveImport` succeeds. -/
def edgeOfMatch (fs : FS) (doc : Doc) (m : RegexMatch) : List ImportEntry :=
  match resolveImport fs doc.fileName m.capture with
  | some p => [⟨p, m.capture, isIgnoredAt doc m.index⟩]
  | none => []

/-- The cycle diagnostic of analyzeDocument (lines 130-140), attached to
the zero range with Warning severity. -/
def cycleDiagnostics (cycle : List String) : List Diagnostic :=
  if cycle.length > 0 then
    [{ range := ⟨⟨0, 0⟩, ⟨0, 0⟩⟩
       message := "Circular Dependency Detected: " ++
         String.intercalate " -> " (cycle.map basename)
       severity := 1
       source := "ArchSentinel" }]
  else []

/-- analyzer.ts `analyzeDocument(doc, rules, graph)`, returning the
diagnostics list and the updated graph.  The scope filter runs on the
normalized file path; when no rule is in scope the function returns
early with the graph untouched.  Otherwise the matches of the dialect
regexes (Dart for a `.dart` file, the TS import and require regexes
otherwise) are walked once, collecting rule diagnostics and resolved
graph edges per match (the source builds both lists in one loop; the two
flat-maps preserve each list and its order exactly), the graph entry for
the file is replaced, a cycle check runs from the file, and a cycle
witness appends one warning diagnostic. -/
def analyzeDocument (rtest : String → String → Bool)
    (extract : Bool → String → List RegexMatch) (fs : FS)
    (doc : Doc) (rules : List Rule) (graph : DependencyGraph) :
    List Diagnostic × DependencyGraph :=
  let filePath := normalize doc.fileName
  let applicableRules := rules.filter fun rule => rtest rule.scope filePath
  if applicableRules.isEmpty then ([], graph)
  else
    let isDart := strEndsWith filePath ".dart"
    let matchList := extract isDart doc.text
    let diagnostics := matchList.flatMap (matchDiagnostics rtest doc applicableRules)
    let importsFound := matchList.flatMap (edgeOfMatch fs doc)
    let graph' := update graph doc.fileName importsFound
    let cycle := detectCycle graph' doc.fileName
    (diagnostics ++ cycleDiagnostics cycle, graph')

/-! ### Edge-linkage predicates used to state cycle-witness properties -/

/-- `v` is the resolved target of some stored edge out of `u`. -/
def linkedB (adj : Adj) (u v : String) : Bool :=
  ((lookupAdj adj u).getD []).any fun e => e.resolvedPath == v

/-- Consecutive elements of the list are linked by stored edges. -/
def chainB (adj : Adj) : List String → Bool
  | [] => true
  | [_] => true
  | u :: v :: rest => linkedB adj u v && chainB adj (v :: rest)

/-! ### Invariant vocabulary for the dfs soundness proof -/

/-- Every member of the active-recursion set is on the path stack. -/
def RecSub (s : DfsState) : Prop := ∀ x ∈ s.recStack, x ∈ s.pathStack

/-- What a successful dfs call guarantees about its final state: the
path stack extends `base`, is edge-linked throughout, and its final
element repeats an element occurring earlier on the stack. -/
def GoodTrue (adj : Adj) (base : List String) (s' : DfsState) : Prop :=
  base <+: s'.pathStack ∧ chainB adj s'.pathStack = true ∧
    ∃ c, s'.pathStack.getLast? = some c ∧ c ∈ s'.pathStack.dropLast

/-- The full contract of one `dfs(node)` call started in state `s`:
success yields a good final state over the extended path, failure
restores the path stack and the recursion stack. -/
def GoOut (adj : Adj) (node : String) (s : DfsState) (r : Bool × DfsState) : Prop :=
  (r.fst = true → GoodTrue adj (s.pathStack ++ [node]) r.snd) ∧
  (r.fst = false → r.snd.pathStack = s.pathStack ∧ r.snd.recStack = s.recStack)

/-- A recursion callback satisfying the dfs contract on every admissible
input state. -/
def RecSound (adj : Adj) (rec : String → DfsState → Bool × DfsState) : Prop :=
  ∀ node s, RecSub s → chainB adj (s.pathStack ++ [node]) = true →
    GoOut adj node s (rec node s)

/-! ### Claim-side reference definitions -/

/-- The instability formula of specification section 3:
fanOut / (fanIn + fanOut), 0 when the denominator is 0. -/
def instabilityFormula (fanIn fanOut : Nat) : Rat :=
  if fanIn + fanOut == 0 then 0 else (fanOut : Rat) / (((fanIn + fanOut : Nat)) : Rat)

/-- The (rule, forbidden pattern) pairs in configuration order whose
pattern hits the edge, used to describe which findings the analyzer
reports. -/
def matchingPairs (rtest : String → String → Bool) (applicableRules : List Rule)
    (resolvedAbsolutePath importPath : String) : List (Rule × String) :=
  (applicableRules.flatMap fun rule =>
    rule.forbidden.map fun pattern => (rule, pattern)).filter
    fun rp => forbiddenHit rtest resolvedAbsolutePath importPath rp.snd

/-! ### Concrete fixtures for witnesses and counterexamples -/

/-- A concrete regex-test oracle: unanchored substring matching, the
reading the specification itself gives for scope patterns. -/
def rtestSub (pat s : String) : Bool := strContains s pat

/-- A document with one relative import. -/
def c1Doc : Doc := ⟨"/proj/src/a.ts", "import x from './b'"⟩

/-- Extraction oracle producing the single match of `c1Doc`. -/
def c1Extract : Bool → String → List RegexMatch :=
  fun _ _ => [⟨0, "import x from './b'", "./b"⟩]

/-- A filesystem containing only /proj/src/b.ts. -/
def c1FS : FS :=
  ⟨fun p => p == "/proj/src/b.ts", fun p => p == "/proj/src/b.ts", fun _ => false⟩

/-- One rule whose forbidden pattern matches the resolved path of the import
of `c1Doc` but not its literal. -/
def c1Rules : List Rule := [⟨"src/a", ["src/b"], "no b"⟩]

/-- A document whose single import carries the suppression marker on the
line above. -/
def c2Doc : Doc := ⟨"/proj/src/a.ts", "// arch-ignore\nimport x from './db'"⟩

/-- Extraction oracle for `c2Doc` (the import statement starts at offset
15, just after the marker line and its newline). -/
def c2Extract : Bool → String → List RegexMatch :=
  fun _ _ => [⟨15, "import x from './db'", "./db"⟩]

/-- A filesystem containing only /proj/src/db.ts. -/
def c2FS : FS :=
  ⟨fun p => p == "/proj/src/db.ts", fun p => p == "/proj/src/db.ts", fun _ => false⟩

/-- One rule whose forbidden pattern matches the import literal of
`c2Doc`. -/
def c2Rules : List Rule := [⟨"src/a", ["./db"], "no db"⟩]

/-- A document with one bare package import. -/
def c3Doc : Doc := ⟨"/proj/src/a.ts", "import x from 'react'"⟩

/-- Extraction oracle producing the single match of `c3Doc`. -/
def c3Extract : Bool → String → List RegexMatch :=
  fun _ _ => [⟨0, "import x from 'react'", "react"⟩]

/-- An empty filesystem: nothing resolves. -/
def c3FS : FS := ⟨fun _ => false, fun _ => false, fun _ => false⟩

/-- One rule forbidding the package literal. -/
def c3Rules : List Rule := [⟨"src/a", ["react"], "no react"⟩]

/-- Two rules that both apply to `c1Doc` and both forbid its import. -/
def c4Rules : List Rule :=
  [⟨"src/a", ["src/b"], "m1"⟩, ⟨"src/a", ["src/b"], "m2"⟩]

/-- A document whose path matches no rule scope of `c9Rules`. -/
def c9Doc : Doc := ⟨"/proj/app/main.ts", "import x from './b'"⟩

/-- A rule set whose only scope pattern misses `c9Doc`. -/
def c9Rules : List Rule := [⟨"xyz", ["b"], "m"⟩]

/-- The three-file loop A imports B, B imports C, C imports A. -/
def gABC : DependencyGraph :=
  update (update (update ⟨[]⟩ "A" [⟨"B", "./B", false⟩])
    "B" [⟨"C", "./C", false⟩]) "C" [⟨"A", "./A", false⟩]

/-- A imports B, B imports C, C imports B: the cycle does not pass
through the start node A. -/
def gABCB : DependencyGraph :=
  update (update (update ⟨[]⟩ "A" [⟨"B", "./B", false⟩])
    "B" [⟨"C", "./C", false⟩]) "C" [⟨"B", "./B", false⟩]

/-- A imports B and B imports C: B is reached as the target of an edge
of the earlier-iterated entry A before its own entry is visited. -/
def c7Graph : DependencyGraph :=
  update (update ⟨[]⟩ "/p/A.ts" [⟨"/p/B.ts", "./B", false⟩])
    "/p/B.ts" [⟨"/p/C.ts", "./C", false⟩]

/-- A zero range for instantiating range arguments. -/
def rng0 : Range := ⟨⟨0, 0⟩, ⟨0, 0⟩⟩

/-! ### Helper lemmas -/

theorem find?_map_eq {α β : Type} (f : α → β) (p : β → Bool) (l : List α) :
    (l.map f).find? p = (l.find? (fun a => p (f a))).map f := by
  induction l with
  | nil => rfl
  | cons a t ih =>
    by_cases h : p (f a) = true
    · simp [List.find?, h]
    · simp only [Bool.not_eq_true] at h
      simp [List.find?, h, ih]

theorem contains_mem {l : List String} {a : String} (h : l.contains a = true) : a ∈ l := by
  simpa using h

theorem setAdj_idem (adj : Adj) (k : String) (v : List ImportEntry) :
    setAdj (setAdj adj k v) k v = setAdj adj k v := by
  induction adj with
  | nil => simp [setAdj]
  | cons kv rest ih =>
    obtain ⟨k', v'⟩ := kv
    by_cases h : (k' == k) = true
    · simp [setAdj, h]
    · simp only [Bool.not_eq_true] at h
      simp [setAdj, h, ih]

theorem lookupAdj_setAdj_self (adj : Adj) (k : String) (v : List ImportEntry) :
    lookupAdj (setAdj adj k v) k = some v := by
  induction adj with
  | nil => simp [setAdj, lookupAdj, List.find?]
  | cons kv rest ih =>
    obtain ⟨k', v'⟩ := kv
    by_cases h : (k' == k) = true
    · simp [setAdj, h, lookupAdj, List.find?]
    · simp only [Bool.not_eq_true] at h
      simp only [setAdj, h, Bool.false_eq_true, if_false]
      simpa [lookupAdj, List.find?, h] using ih

theorem chainB_concat (adj : Adj) :
    ∀ (xs : List String) (l c : String), chainB adj xs = true →
      xs.getLast? = some l → linkedB adj l c = true →
      chainB adj (xs ++ [c]) = true
  | [], l, c => by intro _ hl _; simp at hl
  | [u], l, c => by
    intro _ hl hc
    simp only [List.getLast?_singleton, Option.some.injEq] at hl
    subst hl
    simp [chainB, hc]
  | u :: v :: rest, l, c => by
    intro h hl hc
    have h' : linkedB adj u v = true ∧ chainB adj (v :: rest) = true := by
      simpa [chainB, Bool.and_eq_true] using h
    have hl' : (v :: rest).getLast? = some l := by
      simpa [List.getLast?_cons_cons] using hl
    have htail := chainB_concat adj (v :: rest) l c h'.2 hl' hc
    show chainB adj (u :: v :: (rest ++ [c])) = true
    simpa [chainB, Bool.and_eq_true, h'.1] using htail

/-! ### C6: path resolution matches the specification -/

/-- C6. resolveImport equals the reference definition written from the
words of the specification, for every filesystem state, referring file
and import literal: package-style literals yield null, relative literals
probe exact file, appended extensions and directory index in order, and
absolute literals are accepted only when they exist. -/
theorem C6_resolveImport_matches_spec (fs : FS) (currentFile importPath : String) :
    resolveImport fs currentFile importPath = resolveImportRef fs currentFile importPath := by
  unfold resolveImport resolveImportRef
  by_cases hrel : strStartsWith importPath "." = true
  · simp only [hrel, if_pos]
    set joined := pathResolve (dirname currentFile) importPath with hj
    by_cases hfile : (fs.pathExists joined && fs.isFile joined) = true
    · simp [hfile]
    · simp only [Bool.not_eq_true] at hfile
      simp only [hfile, Bool.false_eq_true, if_false]
      rw [find?_map_eq]
      cases hext : extensions.find? (fun ext => fs.pathExists (joined ++ ext)) with
      | some ext => simp [hext, Option.orElse]
      | none =>
        simp only [hext, Option.map_none']
        by_cases hdir : (fs.pathExists joined && fs.isDirectory joined) = true
        · simp only [hdir, if_pos]
          rw [find?_map_eq]
          cases hidx : extensions.find? (fun ext => fs.pathExists (pathJoin joined ("index" ++ ext))) with
          | some ext => simp [hidx, Option.orElse]
          | none => simp [hidx, Option.orElse]
        · simp only [Bool.not_eq_true] at hdir
          simp [hdir, Option.orElse]
  · simp only [Bool.not_eq_true] at hrel
    simp [hrel]

/-! ### Soundness of the dfs cycle search -/

theorem dfsLoop_sound (adj : Adj) (rec : String → DfsState → Bool × DfsState)
    (hrec : RecSound adj rec) :
    ∀ (lst : List ImportEntry) (s : DfsState) (lastN : String),
      RecSub s → chainB adj s.pathStack = true →
      s.pathStack.getLast? = some lastN →
      (∀ n ∈ lst, linkedB adj lastN n.resolvedPath = true) →
      ((dfsLoop rec lst s).fst = true →
        GoodTrue adj s.pathStack (dfsLoop rec lst s).snd) ∧
      ((dfsLoop rec lst s).fst = false →
        (dfsLoop rec lst s).snd.pathStack = s.pathStack ∧
        (dfsLoop rec lst s).snd.recStack = s.recStack) := by
  intro lst
  induction lst with
  | nil =>
    intro s lastN _ _ _ _
    exact ⟨fun ht => by simp [dfsLoop] at ht, fun _ => ⟨rfl, rfl⟩⟩
  | cons n rest ih =>
    intro s lastN hsub hchain hlast hlink
    have hlinkn : linkedB adj lastN n.resolvedPath = true := hlink n (by simp)
    have hlinkrest : ∀ m ∈ rest, linkedB adj lastN m.resolvedPath = true :=
      fun m hm => hlink m (List.mem_cons_of_mem n hm)
    by_cases hv : n.resolvedPath ∈ s.visited
    · by_cases hr : n.resolvedPath ∈ s.recStack
      · have heq : dfsLoop rec (n :: rest) s =
            (true, ⟨s.visited, s.recStack, s.pathStack ++ [n.resolvedPath]⟩) := by
          simp [dfsLoop, hv, hr]
        rw [heq]
        refine ⟨fun _ => ?_, fun hf => by simp at hf⟩
        refine ⟨List.prefix_append _ _, ?_, n.resolvedPath, ?_, ?_⟩
        · exact chainB_concat adj s.pathStack lastN n.resolvedPath hchain hlast hlinkn
        · exact List.getLast?_concat _
        · show n.resolvedPath ∈ (s.pathStack ++ [n.resolvedPath]).dropLast
          rw [List.dropLast_concat]
          exact hsub _ hr
      · have heq : dfsLoop rec (n :: rest) s = dfsLoop rec rest s := by
          simp [dfsLoop, hv, hr]
        rw [heq]
        exact ih s lastN hsub hchain hlast hlinkrest
    · have hgo := hrec n.resolvedPath s hsub
        (chainB_concat adj s.pathStack lastN n.resolvedPath hchain hlast hlinkn)
      cases hcall : rec n.resolvedPath s with
      | mk b s₁ =>
        rw [hcall] at hgo
        cases b with
        | true =>
          have heq : dfsLoop rec (n :: rest) s = (true, s₁) := by
            simp [dfsLoop, hv, hcall]
          rw [heq]
          refine ⟨fun _ => ?_, fun hf => by simp at hf⟩
          obtain ⟨hpre, hch, c, hc1, hc2⟩ := hgo.1 rfl
          exact ⟨(List.prefix_append _ _).trans hpre, hch, c, hc1, hc2⟩
        | false =>
          obtain ⟨hp, hr'⟩ := hgo.2 rfl
          have heq : dfsLoop rec (n :: rest) s = dfsLoop rec rest s₁ := by
            simp [dfsLoop, hv, hcall]
          rw [heq]
          have hsub₁ : RecSub s₁ := by
            intro x hx
            rw [hp]
            exact hsub x (hr' ▸ hx)
          have hres := ih s₁ lastN hsub₁ (by rw [hp]; exact hchain)
            (by rw [hp]; exact hlast) hlinkrest
          refine ⟨fun ht => ?_, fun hf => ?_⟩
          · obtain ⟨hpre, hch, hdup⟩ := hres.1 ht
            exact ⟨by rw [← hp]; exact hpre, hch, hdup⟩
          · obtain ⟨e1, e2⟩ := hres.2 hf
            exact ⟨by rw [e1, hp], by rw [e2, hr']⟩

theorem dfsGo_sound (adj : Adj) : ∀ fuel, RecSound adj (dfsGo adj fuel) := by
  intro fuel
  induction fuel with
  | zero =>
    intro node s _ _
    exact ⟨fun ht => by simp [dfsGo] at ht, fun _ => ⟨rfl, rfl⟩⟩
  | succ fuel ih =>
    intro node s hsub hchain
    have hsub1 : RecSub (⟨node :: s.visited, node :: s.recStack,
        s.pathStack ++ [node]⟩ : DfsState) := by
      intro x hx
      rcases List.mem_cons.mp hx with h | h
      · exact List.mem_append_right _ (by simp [h])
      · exact List.mem_append_left _ (hsub x h)
    have hlast1 : ((⟨node :: s.visited, node :: s.recStack,
        s.pathStack ++ [node]⟩ : DfsState)).pathStack.getLast? = some node :=
      List.getLast?_concat _
    have hlink1 : ∀ n ∈ (lookupAdj adj node).getD [],
        linkedB adj node n.resolvedPath = true := by
      intro n hn
      unfold linkedB
      rw [List.any_eq_true]
      exact ⟨n, hn, by simp⟩
    have hloop := dfsLoop_sound adj (dfsGo adj fuel) ih ((lookupAdj adj node).getD [])
      ⟨node :: s.visited, node :: s.recStack, s.pathStack ++ [node]⟩ node
      hsub1 hchain hlast1 hlink1
    cases hl : dfsLoop (dfsGo adj fuel) ((lookupAdj adj node).getD [])
        ⟨node :: s.visited, node :: s.recStack, s.pathStack ++ [node]⟩ with
    | mk b2 s2 =>
      rw [hl] at hloop
      cases b2 with
      | true =>
        have heq : dfsGo adj (fuel + 1) node s = (true, s2) := by
          simp [dfsGo, hl]
        rw [heq]
        exact ⟨fun _ => hloop.1 rfl, fun hf => by simp at hf⟩
      | false =>
        obtain ⟨hp, hr⟩ := hloop.2 rfl
        have heq : dfsGo adj (fuel + 1) node s =
            (false, ⟨s2.visited, s2.recStack.erase node, s2.pathStack.dropLast⟩) := by
          simp [dfsGo, hl]
        rw [heq]
        refine ⟨fun ht => by simp at ht, fun _ => ⟨?_, ?_⟩⟩
        · show s2.pathStack.dropLast = s.pathStack
          rw [hp]
          exact List.dropLast_concat
        · show s2.recStack.erase node = s.recStack
          rw [hr]
          exact List.erase_cons_head _ _

theorem detectCycle_sound (g : DependencyGraph) (startNode : String)
    (h : detectCycle g startNode ≠ []) :
    (detectCycle g startNode).head? = some (normalize startNode) ∧
    2 ≤ (detectCycle g startNode).length ∧
    (∃ c, (detectCycle g startNode).getLast? = some c ∧
      c ∈ (detectCycle g startNode).dropLast) ∧
    chainB g.adj (detectCycle g startNode) = true := by
  unfold detectCycle at h ⊢
  cases hgo : dfsGo g.adj (fuelBound g.adj) (normalize startNode) ⟨[], [], []⟩ with
  | mk b s' =>
    cases b with
    | false =>
      rw [hgo] at h
      simp at h
    | true =>
      simp only
      have hrec := dfsGo_sound g.adj (fuelBound g.adj) (normalize startNode)
        ⟨[], [], []⟩ (by intro x hx; simp at hx) (by simp [chainB])
      rw [hgo] at hrec
      obtain ⟨hpre, hch, c, hc1, hc2⟩ := hrec.1 rfl
      obtain ⟨t, ht⟩ := hpre
      have hhead : s'.pathStack.head? = some (normalize startNode) := by
        rw [← ht]
        rfl
      have hlen : 2 ≤ s'.pathStack.length := by
        have h1 : 0 < s'.pathStack.dropLast.length :=
          List.length_pos.mpr (List.ne_nil_of_mem hc2)
        have h2 : s'.pathStack.dropLast.length = s'.pathStack.length - 1 :=
          List.length_dropLast _
        omega
      exact ⟨hhead, hlen, ⟨c, hc1, hc2⟩, hch⟩

/-! ### Claims about cycle witnesses (C5, C10) -/

/-- C10. Every non-empty witness returned by detectCycle has its first
element equal to the normalized start identity, has length at least 2,
its last element equal to some earlier element of the witness, and
consecutive elements linked by stored edges — every returned witness
exhibits an actual loop in the graph. -/
theorem C10_detectCycle_witness_invariant (g : DependencyGraph) (startNode : String)
    (h : detectCycle g startNode ≠ []) :
    (detectCycle g startNode).head? = some (normalize startNode) ∧
    2 ≤ (detectCycle g startNode).length ∧
    (∃ c, (detectCycle g startNode).getLast? = some c ∧
      c ∈ (detectCycle g startNode).dropLast) ∧
    chainB g.adj (detectCycle g startNode) = true :=
  detectCycle_sound g startNode h

/-- Witness for C10 at the concrete three-file loop gABC. -/
theorem C10_detectCycle_witness_invariant_witness :
    (detectCycle gABC "A").head? = some (normalize "A") ∧
    2 ≤ (detectCycle gABC "A").length ∧
    (∃ c, (detectCycle gABC "A").getLast? = some c ∧
      c ∈ (detectCycle gABC "A").dropLast) ∧
    chainB gABC.adj (detectCycle gABC "A") = true :=
  C10_detectCycle_witness_invariant gABC "A" (by decide)

/-- C5 counterexample: for A imports B, B imports C, C imports B, the
witness returned from A is non-empty yet its first and last elements
differ (the witness is [A, B, C, B]), so a witness need not start and
end at the same identity. -/
theorem C5_counterexample :
    detectCycle gABCB "A" = ["A", "B", "C", "B"] ∧
    (detectCycle gABCB "A").head? ≠ (detectCycle gABCB "A").getLast? := by
  decide

/-- C5 (amended). Every non-empty cycle witness returned by detectCycle
ends at an identity that already occurs earlier in the witness (the
appended closing node equals an element of the path so far — not
necessarily the first element); in particular for files A imports B, B imports
C, C imports A, detectCycle(A) returns a path beginning and
ending at A with B and C appearing exactly once in between, in import
order. -/
theorem C5_cycle_witness_amended :
    (∀ (g : DependencyGraph) (startNode : String), detectCycle g startNode ≠ [] →
      ∃ c, (detectCycle g startNode).getLast? = some c ∧
        c ∈ (detectCycle g startNode).dropLast) ∧
    detectCycle gABC "A" = ["A", "B", "C", "A"] := by
  constructor
  · intro g startNode h
    exact (detectCycle_sound g startNode h).2.2.1
  · decide

/-- Witness for the general part of the amended C5 at a concrete cyclic
graph. -/
theorem C5_cycle_witness_amended_witness :
    ∃ c, (detectCycle gABCB "A").getLast? = some c ∧
      c ∈ (detectCycle gABCB "A").dropLast :=
  C5_cycle_witness_amended.1 gABCB "A" (by decide)

/-! ### C1: the two violation call sites -/

/-- C1 counterexample: with substring matching, scope src/a and
forbidden pattern src/b, the relative import ./b of /proj/src/a.ts is
flagged by analyzeDocument (the pattern matches the resolved identity
/proj/src/b) yet the very same stored edge is rendered clean (gray) by
getJsonGraph, which tests only the original literal ./b — the two call
sites are not the same predicate. -/
theorem C1_counterexample :
    (analyzeDocument rtestSub c1Extract c1FS c1Doc c1Rules ⟨[]⟩).fst.length = 1 ∧
    ((getJsonGraph rtestSub (analyzeDocument rtestSub c1Extract c1FS c1Doc c1Rules ⟨[]⟩).snd
      c1Rules).snd.map GEdge.color) = ["gray"] := by
  decide

/-- C1 (amended). The two call sites do not evaluate one identical
predicate: analyzeDocument tests each forbidden pattern against both the
resolved absolute path and the original literal, while getJsonGraph
tests only the original literal; consequently an edge flagged as a
violation when deriving render styling is always flagged by the analyzer
too (it yields at least one finding when not suppressed), but not
conversely. -/
theorem C1_amended_graph_flag_implies_analyzer_finding
    (rtest : String → String → Bool) (applicableRules : List Rule) (range : Range)
    (resolvedAbsolutePath importPath : String)
    (h : isViolationEdge rtest applicableRules importPath = true) :
    importDiagnostics rtest applicableRules range resolvedAbsolutePath importPath false ≠ [] := by
  rw [isViolationEdge, List.any_eq_true] at h
  obtain ⟨rule, hrule, hpat⟩ := h
  rw [List.any_eq_true] at hpat
  obtain ⟨pattern, hmem, htest⟩ := hpat
  apply List.ne_nil_of_mem (a := mkViolationDiag range rule.message importPath)
  rw [importDiagnostics, List.mem_flatMap]
  refine ⟨rule, hrule, ?_⟩
  rw [List.mem_filterMap]
  refine ⟨pattern, hmem, ?_⟩
  have hhit : forbiddenHit rtest resolvedAbsolutePath importPath pattern = true := by
    unfold forbiddenHit
    rw [htest]
    simp
  simp [hhit]

/-- Witness for the amended C1 at a concrete package-import edge. -/
theorem C1_amended_witness :
    importDiagnostics rtestSub c3Rules rng0 "react" "react" false ≠ [] :=
  C1_amended_graph_flag_implies_analyzer_finding rtestSub c3Rules rng0 "react" "react"
    (by decide)

/-! ### C2: suppression -/

/-- C2 counterexample: the import ./db of c2Doc carries the marker on
the line above and its forbidden pattern matches, yet the analysis
result contains no finding at all (the claim expects a finding to still
be produced); the rendered edge is classified suppressed (orange,
dashed), not active. -/
theorem C2_counterexample :
    isViolationEdge rtestSub c2Rules "./db" = true ∧
    (analyzeDocument rtestSub c2Extract c2FS c2Doc c2Rules ⟨[]⟩).fst = [] ∧
    (getJsonGraph rtestSub (analyzeDocument rtestSub c2Extract c2FS c2Doc c2Rules ⟨[]⟩).snd
      c2Rules).snd =
      [⟨"/proj/src/a.ts", "/proj/src/db.ts", "#FFA500", 2, Dashes.nums [5, 5]⟩] := by
  decide

/-- C2 (amended). For a suppressed import, a matching forbidden pattern
produces no violation finding at all in the analysis result (the
diagnostic push is skipped), and the corresponding edge in the derived
render graph is classified as a suppressed violation (orange, width 2,
dashes [5,5]) and never as an active violation (red, width 3, solid). -/
theorem C2_suppression_amended (rtest : String → String → Bool)
    (applicableRules : List Rule) (range : Range)
    (resolvedAbsolutePath importPath : String) :
    importDiagnostics rtest applicableRules range resolvedAbsolutePath importPath true = [] ∧
    (∀ isViolation : Bool,
      styleEdge isViolation true ≠ ("red", 3, Dashes.bool false)) ∧
    styleEdge true true = ("#FFA500", 2, Dashes.nums [5, 5]) := by
  refine ⟨?_, ?_, rfl⟩
  · unfold importDiagnostics
    rw [List.flatMap_eq_nil_iff]
    intro rule _
    rw [List.filterMap_eq_nil_iff]
    intro pattern _
    split <;> simp
  · intro v
    cases v <;> decide

/-! ### C3: unresolved imports -/

/-- C3 counterexample: the unresolved package import react is flagged by
the analyzer, but no edge is recorded for it at all — the stored edge
list of the file is empty and the derived render graph has no edges —
contradicting the claim that the edge is still recorded carrying the raw
literal as its target. -/
theorem C3_counterexample :
    (analyzeDocument rtestSub c3Extract c3FS c3Doc c3Rules ⟨[]⟩).fst.length = 1 ∧
    (analyzeDocument rtestSub c3Extract c3FS c3Doc c3Rules ⟨[]⟩).snd.adj =
      [("/proj/src/a.ts", [])] ∧
    (getJsonGraph rtestSub (analyzeDocument rtestSub c3Extract c3FS c3Doc c3Rules ⟨[]⟩).snd
      c3Rules).snd = [] := by
  decide

/-- C3 (amended). Imports whose literal cannot be resolved are not
recorded in the dependency graph at all (rule matching covers them
inside analyzeDocument directly, against the literal): every edge the
analysis stores for the file carries a successfully resolved target, so
unresolved literals never appear in the graph and trivially cannot take
part in cycle detection. -/
theorem C3_unresolved_edges_amended (rtest : String → String → Bool)
    (extract : Bool → String → List RegexMatch) (fs : FS) (doc : Doc)
    (rules : List Rule) (g : DependencyGraph)
    (h : (rules.filter fun rule => rtest rule.scope (normalize doc.fileName)).isEmpty = false) :
    ∃ edges,
      lookupAdj (analyzeDocument rtest extract fs doc rules g).snd.adj
        (normalize doc.fileName) = some edges ∧
      ∀ e ∈ edges, resolveImport fs doc.fileName e.originalImport = some e.resolvedPath := by
  unfold analyzeDocument
  simp only [h, Bool.false_eq_true, if_false, update]
  refine ⟨_, lookupAdj_setAdj_self _ _ _, ?_⟩
  intro e he
  rw [List.mem_flatMap] at he
  obtain ⟨m, _, he⟩ := he
  unfold edgeOfMatch at he
  cases hres : resolveImport fs doc.fileName m.capture with
  | some p =>
    rw [hres] at he
    simp only [List.mem_singleton] at he
    rw [he]
    exact hres
  | none =>
    rw [hres] at he
    simp at he

/-- Witness for the amended C3 at the concrete resolvable import. -/
theorem C3_unresolved_edges_amended_witness :
    ∃ edges,
      lookupAdj (analyzeDocument rtestSub c1Extract c1FS c1Doc c1Rules ⟨[]⟩).snd.adj
        (normalize c1Doc.fileName) = some edges ∧
      ∀ e ∈ edges, resolveImport c1FS c1Doc.fileName e.originalImport = some e.resolvedPath :=
  C3_unresolved_edges_amended rtestSub c1Extract c1FS c1Doc c1Rules ⟨[]⟩ (by decide)

/-! ### C4: multiple matches -/

/-- C4 counterexample: two rules both match the single edge of c1Doc and
the analyzer reports two findings (one per matching rule, in
configuration order), not exactly one. -/
theorem C4_counterexample :
    (analyzeDocument rtestSub c1Extract c1FS c1Doc c4Rules ⟨[]⟩).fst.length = 2 ∧
    (analyzeDocument rtestSub c1Extract c1FS c1Doc c4Rules ⟨[]⟩).fst.map Diagnostic.message =
      ["m1 (Forbidden import: ./b)", "m2 (Forbidden import: ./b)"] := by
  decide

theorem per_rule_filterMap_eq (rtest : String → String → Bool)
    (resolvedAbsolutePath importPath : String) (range : Range) (rule : Rule) :
    ∀ l : List String,
      (l.filterMap fun pattern =>
        if forbiddenHit rtest resolvedAbsolutePath importPath pattern then
          some (mkViolationDiag range rule.message importPath)
        else none) =
      ((l.map fun pattern => (rule, pattern)).filter
        (fun rp => forbiddenHit rtest resolvedAbsolutePath importPath rp.snd)).map
        (fun rp => mkViolationDiag range rp.fst.message importPath)
  | [] => rfl
  | p :: t => by
    by_cases hp : forbiddenHit rtest resolvedAbsolutePath importPath p = true
    · simp [List.filterMap_cons, List.filter_cons, hp,
        per_rule_filterMap_eq rtest resolvedAbsolutePath importPath range rule t]
    · simp [List.filterMap_cons, List.filter_cons, hp,
        per_rule_filterMap_eq rtest resolvedAbsolutePath importPath range rule t]

/-- C4 (amended). Rule and forbidden-pattern evaluation proceeds in
configuration order, and the analyzer reports one finding per matching
(rule, forbidden-pattern) pair, in that order, each carrying its own
rule message: when several rules match the same edge every match is
reported (the first matching rule's message coming first), not a single
finding. -/
theorem flatMap_filterMap_pairs (rtest : String → String → Bool)
    (resolvedAbsolutePath importPath : String) (range : Range) :
    ∀ rules : List Rule,
      (rules.flatMap fun rule => rule.forbidden.filterMap fun pattern =>
        if forbiddenHit rtest resolvedAbsolutePath importPath pattern then
          some (mkViolationDiag range rule.message importPath)
        else none) =
      ((rules.flatMap fun rule => rule.forbidden.map fun pattern => (rule, pattern)).filter
        (fun rp => forbiddenHit rtest resolvedAbsolutePath importPath rp.snd)).map
        (fun rp => mkViolationDiag range rp.fst.message importPath)
  | [] => rfl
  | rule :: rest => by
    rw [List.flatMap_cons, List.flatMap_cons, List.filter_append, List.map_append,
      flatMap_filterMap_pairs rtest resolvedAbsolutePath importPath range rest]
    congr 1
    exact per_rule_filterMap_eq rtest resolvedAbsolutePath importPath range rule rule.forbidden

theorem C4_all_matching_pairs_reported (rtest : String → String → Bool)
    (applicableRules : List Rule) (range : Range)
    (resolvedAbsolutePath importPath : String) :
    importDiagnostics rtest applicableRules range resolvedAbsolutePath importPath false =
      (matchingPairs rtest applicableRules resolvedAbsolutePath importPath).map
        (fun rp => mkViolationDiag range rp.fst.message importPath) := by
  have hred : importDiagnostics rtest applicableRules range resolvedAbsolutePath importPath false =
      applicableRules.flatMap (fun rule => rule.forbidden.filterMap fun pattern =>
        if forbiddenHit rtest resolvedAbsolutePath importPath pattern then
          some (mkViolationDiag range rule.message importPath)
        else none) := by
    unfold importDiagnostics
    simp only [Bool.false_eq_true, if_false]
  rw [hred]
  unfold matchingPairs
  exact flatMap_filterMap_pairs rtest resolvedAbsolutePath importPath range applicableRules

/-! ### C7: instability of already-added target nodes -/

/-- C7 (code bug evaluation). In the graph where A imports B and B imports
C, the render node for B — added while walking the edges of the
earlier entry A, before its own adjacency entry is reached — carries
instability 0, although B has one outgoing and one incoming stored edge,
for which the specified formula fanOut / (fanIn + fanOut) gives 1/2; the
node-creation guard tests only the added-node set, not membership in the
adjacency keys the code comment describes. -/
theorem C7_instability_code_bug_eval :
    (getJsonGraph rtestSub c7Graph []).fst.map (fun n => (n.id, n.instability)) =
      [("/p/A.ts", 1), ("/p/B.ts", 0), ("/p/C.ts", 0)] ∧
    fanInCount c7Graph.adj "/p/B.ts" = 1 ∧
    ((lookupAdj c7Graph.adj "/p/B.ts").getD []).length = 1 ∧
    instabilityFormula 1 1 = 1 / 2 ∧ (1 / 2 : Rat) ≠ 0 := by
  refine ⟨by decide, by decide, by decide, ?_, by norm_num⟩
  norm_num [instabilityFormula]

/-! ### C8: idempotence -/

/-- C8. Re-running the whole per-file analysis on the same text, rules
and filesystem over the graph state the first run produced returns the
same diagnostics and the same graph: the pipeline is a deterministic
function of its inputs, the only graph effect is replacing the file
entry with the same recomputed edge list, and the cycle-detection result
is therefore identical. -/
theorem C8_reanalysis_idempotent (rtest : String → String → Bool)
    (extract : Bool → String → List RegexMatch) (fs : FS) (doc : Doc)
    (rules : List Rule) (g : DependencyGraph) :
    analyzeDocument rtest extract fs doc rules
      (analyzeDocument rtest extract fs doc rules g).snd =
    analyzeDocument rtest extract fs doc rules g := by
  unfold analyzeDocument
  by_cases he : (rules.filter fun rule => rtest rule.scope (normalize doc.fileName)).isEmpty = true
  · simp [he]
  · rw [Bool.not_eq_true] at he
    simp [he, update, setAdj_idem]

/-! ### C9: out-of-scope files -/

/-- C9. When the normalized file identity matches no rule scope pattern,
analyzeDocument returns an empty diagnostics list and the dependency
graph completely unchanged — no adjacency entry is created or replaced
and no cycle diagnostic can arise — even when the document contains imports.
-/
theorem C9_out_of_scope_is_noop (rtest : String → String → Bool)
    (extract : Bool → String → List RegexMatch) (fs : FS) (doc : Doc)
    (rules : List Rule) (g : DependencyGraph)
    (h : ∀ rule ∈ rules, rtest rule.scope (normalize doc.fileName) = false) :
    analyzeDocument rtest extract fs doc rules g = ([], g) := by
  unfold analyzeDocument
  have hfil : (rules.filter fun rule => rtest rule.scope (normalize doc.fileName)) = [] := by
    rw [List.filter_eq_nil_iff]
    intro rule hr
    simp [h rule hr]
  simp [hfil]

/-- Witness for C9: a document with an import, analyzed under a rule set
whose scope misses it, over a non-trivial graph. -/
theorem C9_out_of_scope_is_noop_witness :
    analyzeDocument rtestSub c1Extract c1FS c9Doc c9Rules gABC = ([], gABC) :=
  C9_out_of_scope_is_noop rtestSub c1Extract c1FS c9Doc c9Rules gABC (by decide)

end ArchSentinel
